import Mathlib

/-!
Shallow embedding of `scripts/ci/check_sync_reply_allowlist.py`: a CI
guardrail that parses an allowlist of permitted synchronous
`xcb_*_reply` call sites, scans a fixed set of tracked source files for
actual call sites, and requires the two resulting counters to agree.

Files are modelled as lists of lines (the Python code reads text and
calls `splitlines`); the filesystem is a partial map from relative path
to file contents.  Python's `collections.Counter` over `(path, symbol)`
keys is modelled as an association list with the dict insert/update
semantics, together with Counter equality (same keys, same counts).
-/

/-- ASCII whitespace as recognised by Python's `str.strip` and the
regex class `\s` (Unicode whitespace beyond ASCII is not modelled). -/
def isPySpace (c : Char) : Bool :=
  c = ' ' || c = '\t' || c = '\n' || c = '\r' || c = '\x0b' || c = '\x0c'

/-- Word character for the regex classes `\w` / `[A-Za-z0-9_]` and the
word boundary `\b` (ASCII portion). -/
def isWordChar (c : Char) : Bool :=
  c.isAlpha || c.isDigit || c = '_'

/-- Python `str.strip()` on a character list. -/
def stripChars (cs : List Char) : List Char :=
  ((cs.dropWhile isPySpace).reverse.dropWhile isPySpace).reverse

/-- Python `str.strip()`. -/
def pyStrip (s : String) : String :=
  String.mk (stripChars s.data)

/-- Whether `p` is a leading segment of `cs` (Python `str.startswith`). -/
def startsWithL : List Char → List Char → Bool
  | [], _ => true
  | _ :: _, [] => false
  | p :: ps, c :: cs => p = c && startsWithL ps cs

/-- Whether `p` is a trailing segment of `cs` (Python `str.endswith`). -/
def endsWithL (p cs : List Char) : Bool :=
  startsWithL p.reverse cs.reverse

/-- Whether `sub` occurs contiguously inside `cs` (Python `in` on strings). -/
def containsSub : List Char → List Char → Bool
  | _, [] => false
  | sub, c :: cs => startsWithL sub (c :: cs) || containsSub sub cs

/-- Substring test at the string level; `containsStr s sub` is Python
`sub in s`.  A suffix check on the empty list is included so that the
empty substring is always found, as in Python. -/
def containsStr (s sub : String) : Bool :=
  startsWithL sub.data s.data || containsSub sub.data s.data

/-- Python `line.split(sep, n)`: split on at most `n` occurrences of
`sep`, the remainder staying in the last field.  `splitHead` finds the
first separator. -/
def splitHead (sep : Char) : List Char → Option (List Char × List Char)
  | [] => none
  | c :: cs =>
    if c = sep then some ([], cs)
    else match splitHead sep cs with
      | none => none
      | some (pre, post) => some (c :: pre, post)

def splitOnN (sep : Char) : Nat → List Char → List (List Char)
  | 0, cs => [cs]
  | n + 1, cs =>
    match splitHead sep cs with
    | none => [cs]
    | some (pre, post) => pre :: splitOnN sep n post

/-- Python `int(text)` on an already-stripped field: optional sign then
a nonempty run of decimal digits.  (Python additionally accepts
underscore digit grouping; that is not modelled.) -/
def digitsToNat (acc : Nat) : List Char → Option Nat
  | [] => some acc
  | c :: cs => if c.isDigit then digitsToNat (acc * 10 + (c.toNat - 48)) cs else none

def parseIntText (cs : List Char) : Option Int :=
  match cs with
  | [] => none
  | '-' :: rest => match rest with
    | [] => none
    | _ => (digitsToNat 0 rest).map (fun n => -(n : Int))
  | '+' :: rest => match rest with
    | [] => none
    | _ => (digitsToNat 0 rest).map (fun n => (n : Int))
  | _ => (digitsToNat 0 cs).map (fun n => (n : Int))

/-! ## Counter model

`collections.Counter` keyed by `(path, symbol)`.  Entries are kept in
insertion order like a Python dict; `incr` is `counter[key] += n`. -/

abbrev SymKey := String × String

abbrev SymCounter := List (SymKey × Nat)

/-- `counter[key] += n` with dict semantics: update in place when the
key is present, append otherwise. -/
def incr : SymCounter → SymKey → Nat → SymCounter
  | [], k, n => [(k, n)]
  | (k', v) :: t, k, n =>
    if k' = k then (k', v + n) :: t else (k', v) :: incr t k n

/-- `counter[key]` with default 0 (`Counter.__getitem__`). -/
def lookup : SymCounter → SymKey → Nat
  | [], _ => 0
  | (k', v) :: t, k => if k' = k then v else lookup t k

/-- `sum(counter.values())`. -/
def csum (c : SymCounter) : Nat :=
  (c.map Prod.snd).sum

/-- Python `Counter.__eq__` restricted to counters that never store a
zero count (as is the case in this program): equal key sets with equal
counts. -/
def ceq (a b : SymCounter) : Bool :=
  a.all (fun kv => lookup b kv.1 = kv.2) && b.all (fun kv => lookup a kv.1 = kv.2)

/-! ## The scanner regex

`REPLY_RE = re.compile(r"\b(xcb_[A-Za-z0-9_]+_reply)\s*\(")`, applied
with `finditer` to each raw line.  The matcher below implements exactly
this pattern: a word boundary, the literal `xcb_`, a greedy nonempty
run of word characters (with backtracking), the literal `_reply`,
optional whitespace, and `(`. -/

def xcbChars : List Char := ['x', 'c', 'b', '_']

def replyChars : List Char := ['_', 'r', 'e', 'p', 'l', 'y']

def fromReplyChars : List Char := ['_', 'f', 'r', 'o', 'm', '_', 'r', 'e', 'p', 'l', 'y']

/-- Consume an exact literal, returning the remainder. -/
def stripLit : List Char → List Char → Option (List Char)
  | [], cs => some cs
  | _ :: _, [] => none
  | p :: ps, c :: cs => if c = p then stripLit ps cs else none

/-- Try `_reply\s*\(` at the current position; on success return the
remainder after the consumed `(`. -/
def tryClose (cs : List Char) : Option (List Char) :=
  match stripLit replyChars cs with
  | none => none
  | some cs1 =>
    match cs1.dropWhile isPySpace with
    | '(' :: rest => some rest
    | _ => none

/-- Greedy `[A-Za-z0-9_]+` followed by `_reply\s*\(`, with regex
backtracking: the longest body is tried first.  `acc` is the reversed
body consumed so far; on success the full body and the remainder after
`(` are returned. -/
def greedyBody (acc : List Char) : List Char → Option (List Char × List Char)
  | [] =>
    if acc.isEmpty then none
    else (tryClose []).map (fun r => (acc.reverse, r))
  | c :: cs =>
    if isWordChar c then
      match greedyBody (c :: acc) cs with
      | some r => some r
      | none =>
        if acc.isEmpty then none
        else (tryClose (c :: cs)).map (fun r => (acc.reverse, r))
    else
      if acc.isEmpty then none
      else (tryClose (c :: cs)).map (fun r => (acc.reverse, r))

/-- Try the whole pattern at the current position (which must already
be a word boundary).  On success, return the captured symbol and the
remainder of the line after the consumed `(`. -/
def tryMatchAt (cs : List Char) : Option (String × List Char) :=
  match stripLit xcbChars cs with
  | none => none
  | some cs1 =>
    match greedyBody [] cs1 with
    | none => none
    | some (body, rest) => some (String.mk (xcbChars ++ body ++ replyChars), rest)

/-- `REPLY_RE.finditer` over one line: scan left to right, trying the
pattern at every word-boundary position; after a match, scanning
resumes after the consumed `(`.  `noBoundary` is true when the previous
character was a word character (so `\b` fails before the next one).
Fuel bounds the recursion; `findMatches` supplies enough for the whole
line. -/
def findMatchesAux : Nat → Bool → List Char → List String
  | 0, _, _ => []
  | _ + 1, _, [] => []
  | fuel + 1, noBoundary, c :: cs =>
    if noBoundary then
      findMatchesAux fuel (isWordChar c) cs
    else
      match tryMatchAt (c :: cs) with
      | some (sym, rest) => sym :: findMatchesAux fuel false rest
      | none => findMatchesAux fuel (isWordChar c) cs

def findMatches (line : String) : List String :=
  findMatchesAux (line.data.length + 1) false line.data

/-! ## Program constants -/

def DEFAULT_TRACKED_FILES : List String :=
  ["src/menu.c", "src/wm.c", "src/wm_desktop.c", "src/wm_input_keys.c"]

def IGNORED_REPLY_SYMBOLS : List String := ["xcb_poll_for_reply"]

/-! ## AllowlistParser (`parse_allowlist`) -/

/-- Semantic validation of one non-comment, non-blank allowlist line
(already stripped): split into exactly four fields on `|` (bounded to
four parts, so later separators stay in the rationale), then apply the
per-line checks in source order.  On success, return the key and the
declared count. -/
def parseRule (tracked : List String) (lineno : Nat) (line : String) :
    Except String (SymKey × Nat) :=
  match (splitOnN '|' 3 line.data).map (fun p => String.mk (stripChars p)) with
  | [relPath, symbol, countText, rationale] =>
    if !(tracked.contains relPath) then
      .error ("line " ++ toString lineno ++ ": path " ++ relPath ++ " is not in tracked files")
    else if !(startsWithL xcbChars symbol.data && endsWithL replyChars symbol.data) then
      .error ("line " ++ toString lineno ++ ": invalid reply symbol " ++ symbol)
    else if endsWithL fromReplyChars symbol.data then
      .error ("line " ++ toString lineno ++
        ": parser helpers ending in _from_reply must not appear in this allowlist")
    else
      match parseIntText countText.data with
      | none => .error ("line " ++ toString lineno ++ ": invalid count " ++ countText)
      | some count =>
        if count ≤ 0 then
          .error ("line " ++ toString lineno ++ ": count must be positive")
        else if !(containsStr rationale "bound<=") then
          .error ("line " ++ toString lineno ++
            ": rationale must include measurable bound (missing bound<=)")
        else .ok ((relPath, symbol), count.toNat)
  | _ =>
    .error ("line " ++ toString lineno ++
      ": expected 4 fields (path|symbol|count|rationale)")

/-- The per-line loop of `parse_allowlist`: skip blank and `#` comment
lines, validate every rule line, and accumulate counts by summation
into the expected counter.  The returned total is
`sum(expected.values())`. -/
def parseLines (tracked : List String) : Nat → SymCounter → List String →
    Except String (SymCounter × Nat)
  | _, acc, [] => .ok (acc, csum acc)
  | lineno, acc, raw :: rest =>
    let line := pyStrip raw
    if line.data.isEmpty || startsWithL ['#'] line.data then
      parseLines tracked (lineno + 1) acc rest
    else
      match parseRule tracked lineno line with
      | .error e => .error e
      | .ok (k, n) => parseLines tracked (lineno + 1) (incr acc k n) rest

/-- `parse_allowlist`: `none` contents stand for a missing allowlist
file (`allowlist_path.is_file()` fails). -/
def parse_allowlist (contents : Option (List String)) (tracked : List String) :
    Except String (SymCounter × Nat) :=
  match contents with
  | none => .error "allowlist file not found"
  | some lines => parseLines tracked 1 [] lines

/-! ## SourceScanner (`collect_actual`) -/

/-- The body of the scanner's per-match loop: skip symbols in the
ignore set, skip `_from_reply` helpers, count everything else. -/
def scanStep (relPath : String) (a : SymCounter × Nat) (sym : String) :
    SymCounter × Nat :=
  if IGNORED_REPLY_SYMBOLS.contains sym then a
  else if endsWithL fromReplyChars sym.data then a
  else (incr a.1 (relPath, sym) 1, a.2 + 1)

/-- Scan one raw source line: skip it when its stripped form starts
with `//`, otherwise count every regex match whose symbol is neither in
the ignore set nor a `_from_reply` helper. -/
def scanLine (relPath : String) (acc : SymCounter × Nat) (raw : String) :
    SymCounter × Nat :=
  if startsWithL ['/', '/'] (stripChars raw.data) then acc
  else (findMatches raw).foldl (scanStep relPath) acc

def scanFile (relPath : String) (acc : SymCounter × Nat) (lines : List String) :
    SymCounter × Nat :=
  lines.foldl (scanLine relPath) acc

/-- The per-file loop of `collect_actual`; the filesystem `fs` maps a
tracked relative path to its lines, `none` standing for a file missing
on disk. -/
def collectGo (fs : String → Option (List String)) :
    List String → SymCounter × Nat → Except String (SymCounter × Nat)
  | [], acc => .ok acc
  | relPath :: rest, acc =>
    match fs relPath with
    | none => .error ("tracked file not found: " ++ relPath)
    | some lines => collectGo fs rest (scanFile relPath acc lines)

def collect_actual (fs : String → Option (List String)) (tracked : List String) :
    Except String (SymCounter × Nat) :=
  collectGo fs tracked ([], 0)

/-! ## Reconciler rendering (`describe`) and Driver (`main`) -/

/-- Lexicographic character-list order, matching Python string
comparison for the ASCII text involved. -/
def charListLe : List Char → List Char → Bool
  | [], _ => true
  | _ :: _, [] => false
  | a :: as, b :: bs => if a = b then charListLe as bs else decide (a < b)

/-- Python tuple order on `((path, symbol), count)` items. -/
def itemLe (a b : SymKey × Nat) : Bool :=
  if a.1.1 = b.1.1 then
    if a.1.2 = b.1.2 then a.2 ≤ b.2
    else charListLe a.1.2.data b.1.2.data
  else charListLe a.1.1.data b.1.1.data

def insertSorted (x : SymKey × Nat) : List (SymKey × Nat) → List (SymKey × Nat)
  | [] => [x]
  | y :: ys => if itemLe x y then x :: y :: ys else y :: insertSorted x ys

/-- Python `sorted(counter.items())`. -/
def sortItems (l : List (SymKey × Nat)) : List (SymKey × Nat) :=
  l.foldr insertSorted []

def describe (c : SymCounter) : List String :=
  (sortItems c).map (fun kv => kv.1.1 ++ "|" ++ kv.1.2 ++ "|" ++ toString kv.2)

def joinLines : List String → String
  | [] => ""
  | [s] => s
  | s :: rest => s ++ "\n" ++ joinLines rest

def renderBlock (ls : List String) : String :=
  if ls.isEmpty then "<none>" else joinLines ls

def joinComma : List String → String
  | [] => ""
  | [s] => s
  | s :: rest => s ++ ", " ++ joinComma rest

/-- The mismatch diagnostic printed to stderr (the concrete allowlist
path interpolated by the script is not modelled). -/
def mismatchMsg (expected actual : SymCounter) : String :=
  "error: sync reply allowlist mismatch\n" ++
  "tracked files: " ++ joinComma DEFAULT_TRACKED_FILES ++ "\n" ++
  "expected (allowlist):\n" ++ renderBlock (describe expected) ++ "\n" ++
  "actual (source scan):\n" ++ renderBlock (describe actual)

def successLine (total nfiles : Nat) : String :=
  "sync reply allowlist OK (" ++ toString total ++ " callsites across " ++
  toString nfiles ++ " files)"

structure RunResult where
  exitCode : Nat
  stdout : List String
  stderr : List String
deriving DecidableEq, Repr

/-- The `main` driver after configuration resolution: parse the
allowlist, scan the tracked files, compare the counters, print the
success line, and apply the defensive total check. -/
def run (allowlistContents : Option (List String))
    (fs : String → Option (List String)) : RunResult :=
  match parse_allowlist allowlistContents DEFAULT_TRACKED_FILES with
  | .error msg => ⟨1, [], ["error: " ++ msg]⟩
  | .ok (expected, expectedTotal) =>
    match collect_actual fs DEFAULT_TRACKED_FILES with
    | .error msg => ⟨1, [], ["error: " ++ msg]⟩
    | .ok (actual, actualTotal) =>
      if ceq expected actual then
        if expectedTotal ≠ actualTotal then
          ⟨1, [successLine actualTotal DEFAULT_TRACKED_FILES.length],
            ["error: internal error: equal counters but different totals (expected=" ++
              toString expectedTotal ++ " actual=" ++ toString actualTotal ++ ")"]⟩
        else
          ⟨0, [successLine actualTotal DEFAULT_TRACKED_FILES.length], []⟩
      else ⟨1, [], [mismatchMsg expected actual]⟩

/-! ## Derived definitions used by the verification -/

/-- Keys are pairwise distinct: the invariant every Python dict enjoys. -/
def NodupKeys (c : SymCounter) : Prop := c.Pairwise (fun x y => x.1 ≠ y.1)

/-- Remove the (unique, under `NodupKeys`) entry with key `k`. -/
def eraseKey : SymCounter → SymKey → SymCounter
  | [], _ => []
  | (k', v) :: t, k => if k' = k then t else (k', v) :: eraseKey t k

/-- Stripped field list of one allowlist line, as computed inside
`parseRule`. -/
def ruleFields (line : String) : List String :=
  (splitOnN '|' 3 line.data).map (fun p => String.mk (stripChars p))

/-- Whether the scanner counts a matched symbol. -/
def keptSym (sym : String) : Bool :=
  !(IGNORED_REPLY_SYMBOLS.contains sym) && !(endsWithL fromReplyChars sym.data)

/-- The keys one raw line contributes to the actual counter. -/
def lineKeys (relPath : String) (raw : String) : List SymKey :=
  if startsWithL ['/', '/'] (stripChars raw.data) then []
  else ((findMatches raw).filter keptSym).map (fun sym => (relPath, sym))

def fileKeys (relPath : String) : List String → List SymKey
  | [] => []
  | l :: ls => lineKeys relPath l ++ fileKeys relPath ls

def trackKeys (fs : String → Option (List String)) : List String → List SymKey
  | [] => []
  | rp :: rest => fileKeys rp ((fs rp).getD []) ++ trackKeys fs rest

def incrAll (c : SymCounter) (ks : List SymKey) : SymCounter :=
  ks.foldl (fun c2 k => incr c2 k 1) c

/-- Occurrences of a key in a key sequence. -/
def countK (k : SymKey) : List SymKey → Nat
  | [] => 0
  | x :: xs => (if x = k then 1 else 0) + countK k xs

/-! ## Concrete sample inputs used to instantiate the theorems -/

def sampleMenuLines : List String :=
  ["r = xcb_query_pointer_reply(c, ck, 0);",
   "s = xcb_query_pointer_reply(c, ck, 0); t = xcb_query_pointer_reply(c, ck, 0);",
   "// u = xcb_query_pointer_reply(c, ck, 0);",
   "u = xcb_query_pointer_reply (c, ck, 0);",
   "v = xcb_query_pointer_reply(c, ck, 0);"]

def sampleFS : String → Option (List String) := fun p =>
  if p = "src/menu.c" then some sampleMenuLines
  else if p = "src/wm.c" then some []
  else if p = "src/wm_desktop.c" then some ["// desktop helpers"]
  else if p = "src/wm_input_keys.c" then some ["xcb_poll_for_reply(c);"]
  else none

def sampleAllowlist : List String :=
  ["# permitted synchronous replies",
   "",
   "src/menu.c|xcb_query_pointer_reply|2|bound<=2 per invocation",
   "src/menu.c|xcb_query_pointer_reply|3|bound<=3 per refresh"]

def sampleCounter : SymCounter := [(("src/menu.c", "xcb_query_pointer_reply"), 5)]

def menuFirstFour : List String :=
  ["r = xcb_query_pointer_reply(c, ck, 0);",
   "s = xcb_query_pointer_reply(c, ck, 0); t = xcb_query_pointer_reply(c, ck, 0);",
   "// u = xcb_query_pointer_reply(c, ck, 0);",
   "u = xcb_query_pointer_reply (c, ck, 0);"]

def menuLastLine : String := "v = xcb_query_pointer_reply(c, ck, 0);"

def menuLastLineExtra : String :=
  "v = xcb_query_pointer_reply(c, ck, 0); w = xcb_get_input_focus_reply(c, ck, 0);"

/-- The sample filesystem after one extra call site is added to the
last live line of the menu file. -/
def extraCallFS : String → Option (List String) := fun g =>
  if g = "src/menu.c" then some (menuFirstFour ++ menuLastLineExtra :: [])
  else sampleFS g

/-! ## Counter lemmas -/


theorem lookup_incr (c : SymCounter) (k k' : SymKey) (n : Nat) :
    lookup (incr c k n) k' = lookup c k' + (if k' = k then n else 0) := by
  induction c with
  | nil =>
    by_cases h : k = k'
    · simp [incr, lookup, h]
    · simp [incr, lookup, h, show ¬ (k' = k) from fun hh => h hh.symm]
  | cons a t ih =>
    obtain ⟨ak, av⟩ := a
    by_cases hak : ak = k
    · subst hak
      by_cases h : ak = k'
      · simp [incr, lookup, h]
      · simp [incr, lookup, h, show ¬ (k' = ak) from fun hh => h hh.symm]
    · by_cases h : ak = k'
      · subst h
        simp [incr, lookup, hak, show ¬ (ak = k) from hak]
      · simp [incr, lookup, hak, h, ih]

theorem mem_keys_incr (c : SymCounter) (k k' : SymKey) (n : Nat) (v : Nat)
    (h : (k', v) ∈ incr c k n) : (∃ w, (k', w) ∈ c) ∨ k' = k := by
  induction c with
  | nil =>
    simp [incr] at h
    right; exact h.1
  | cons a t ih =>
    obtain ⟨ak, av⟩ := a
    by_cases hak : ak = k
    · subst hak
      simp [incr] at h
      rcases h with ⟨h1, _⟩ | h2
      · left; exact ⟨av, by simp [h1]⟩
      · left; exact ⟨v, by simp [h2]⟩
    · simp [incr, hak] at h
      rcases h with ⟨h1, h2⟩ | h2
      · left; exact ⟨av, by simp [h1]⟩
      · rcases ih h2 with ⟨w, hw⟩ | he
        · left; exact ⟨w, by simp [hw]⟩
        · right; exact he

theorem nodupKeys_incr (c : SymCounter) (k : SymKey) (n : Nat)
    (h : NodupKeys c) : NodupKeys (incr c k n) := by
  induction c with
  | nil => simp [incr, NodupKeys]
  | cons a t ih =>
    obtain ⟨ak, av⟩ := a
    rcases List.pairwise_cons.mp h with ⟨hhead, htail⟩
    by_cases hak : ak = k
    · subst hak
      simp only [incr, if_pos rfl]
      exact List.pairwise_cons.mpr ⟨hhead, htail⟩
    · simp only [incr, if_neg hak]
      refine List.pairwise_cons.mpr ⟨?_, ih htail⟩
      intro y hy
      obtain ⟨yk, yv⟩ := y
      rcases mem_keys_incr t k yk n yv hy with ⟨w, hw⟩ | he
      · exact hhead (yk, w) hw
      · simpa [he] using hak

theorem pos_incr (c : SymCounter) (k : SymKey) (n : Nat)
    (hc : ∀ kv ∈ c, 0 < kv.2) (hn : 0 < n) : ∀ kv ∈ incr c k n, 0 < kv.2 := by
  induction c with
  | nil => simpa [incr] using hn
  | cons a t ih =>
    obtain ⟨ak, av⟩ := a
    by_cases hak : ak = k
    · subst hak
      simp only [incr, if_pos rfl]
      intro kv hkv
      rcases List.mem_cons.mp hkv with h1 | h2
      · subst h1
        exact Nat.lt_of_lt_of_le (hc (ak, av) (by simp)) (Nat.le_add_right _ _)
      · exact hc kv (List.mem_cons_of_mem _ h2)
    · simp only [incr, if_neg hak]
      intro kv hkv
      rcases List.mem_cons.mp hkv with h1 | h2
      · subst h1; exact hc (ak, av) (by simp)
      · exact ih (fun x hx => hc x (List.mem_cons_of_mem _ hx)) kv h2

theorem csum_incr (c : SymCounter) (k : SymKey) (n : Nat) :
    csum (incr c k n) = csum c + n := by
  induction c with
  | nil => simp [incr, csum]
  | cons a t ih =>
    obtain ⟨ak, av⟩ := a
    by_cases hak : ak = k
    · subst hak
      simp [incr, csum]
      omega
    · simp [incr, hak, csum] at ih ⊢
      omega

theorem mem_of_lookup_ne_zero (c : SymCounter) (k : SymKey)
    (h : lookup c k ≠ 0) : (k, lookup c k) ∈ c := by
  induction c with
  | nil => simp [lookup] at h
  | cons a t ih =>
    obtain ⟨ak, av⟩ := a
    by_cases hak : ak = k
    · subst hak
      simp [lookup]
    · simp [lookup, hak] at h ⊢
      right
      simpa [lookup, hak] using ih (by simpa [lookup, hak] using h)

theorem lookup_of_mem_nodup (c : SymCounter) (k : SymKey) (v : Nat)
    (hn : NodupKeys c) (h : (k, v) ∈ c) : lookup c k = v := by
  induction c with
  | nil => simp at h
  | cons a t ih =>
    obtain ⟨ak, av⟩ := a
    rcases List.pairwise_cons.mp hn with ⟨hhead, htail⟩
    rcases List.mem_cons.mp h with h1 | h2
    · cases h1
      simp [lookup]
    · have hk : ak ≠ k := hhead (k, v) h2
      simp [lookup, hk]
      exact ih htail h2

theorem lookup_eq_zero_of_forall_ne (c : SymCounter) (k : SymKey)
    (h : ∀ kv ∈ c, kv.1 ≠ k) : lookup c k = 0 := by
  induction c with
  | nil => rfl
  | cons a t ih =>
    obtain ⟨ak, av⟩ := a
    have hak : ak ≠ k := h (ak, av) (by simp)
    simp [lookup, hak]
    exact ih (fun x hx => h x (List.mem_cons_of_mem _ hx))

theorem ceq_lookup (a b : SymCounter) (h : ceq a b = true) (k : SymKey) :
    lookup a k = lookup b k := by
  rcases Bool.and_eq_true .. ▸ (ceq.eq_def a b ▸ h) with ⟨h1, h2⟩
  by_cases ha : lookup a k = 0
  · by_cases hb : lookup b k = 0
    · rw [ha, hb]
    · have hm := mem_of_lookup_ne_zero b k hb
      have := (List.all_eq_true.mp h2) (k, lookup b k) hm
      simp only [decide_eq_true_eq] at this
      exact this
  · have hm := mem_of_lookup_ne_zero a k ha
    have := (List.all_eq_true.mp h1) (k, lookup a k) hm
    simp only [decide_eq_true_eq] at this
    exact this.symm

theorem ceq_false_of_lookup_ne (a b : SymCounter) (k : SymKey)
    (h : lookup a k ≠ lookup b k) : ceq a b = false := by
  cases hc : ceq a b with
  | false => rfl
  | true => exact absurd (ceq_lookup a b hc k) h


theorem eraseKey_sublist (c : SymCounter) (k : SymKey) :
    List.Sublist (eraseKey c k) c := by
  induction c with
  | nil => simp [eraseKey]
  | cons a t ih =>
    obtain ⟨ak, av⟩ := a
    by_cases hak : ak = k
    · simp [eraseKey, hak]
    · simpa [eraseKey, hak] using List.Sublist.cons₂ (ak, av) ih

theorem nodupKeys_eraseKey (c : SymCounter) (k : SymKey) (h : NodupKeys c) :
    NodupKeys (eraseKey c k) :=
  List.Pairwise.sublist (eraseKey_sublist c k) h

theorem lookup_eraseKey (c : SymCounter) (k k' : SymKey) (h : NodupKeys c) :
    lookup (eraseKey c k) k' = if k' = k then 0 else lookup c k' := by
  induction c with
  | nil => simp [eraseKey, lookup]
  | cons a t ih =>
    obtain ⟨ak, av⟩ := a
    rcases List.pairwise_cons.mp h with ⟨hhead, htail⟩
    by_cases hak : ak = k
    · subst hak
      by_cases h2 : k' = ak
      · subst h2
        simp [eraseKey, lookup,
          lookup_eq_zero_of_forall_ne t k' (fun x hx => (hhead x hx).symm)]
      · simp [eraseKey, lookup, h2, show ¬ (ak = k') from fun hh => h2 hh.symm]
    · by_cases h2 : k' = ak
      · subst h2
        simp [eraseKey, lookup, hak, show ¬ (k' = k) from fun hh => hak (hh ▸ rfl)]
      · simp [eraseKey, lookup, hak, show ¬ (ak = k') from fun hh => h2 hh.symm,
          ih htail]

theorem csum_eraseKey (c : SymCounter) (k : SymKey) (v : Nat)
    (hn : NodupKeys c) (h : (k, v) ∈ c) : csum c = v + csum (eraseKey c k) := by
  induction c with
  | nil => simp at h
  | cons a t ih =>
    obtain ⟨ak, av⟩ := a
    rcases List.pairwise_cons.mp hn with ⟨hhead, htail⟩
    rcases List.mem_cons.mp h with h1 | h2
    · cases h1
      simp [eraseKey, csum]
    · have hk : ak ≠ k := hhead (k, v) h2
      simp [eraseKey, hk, csum] at ih ⊢
      have := ih htail h2
      omega

theorem csum_eq_of_pointwise (a : SymCounter) :
    ∀ b : SymCounter, NodupKeys a → NodupKeys b →
    (∀ kv ∈ a, 0 < kv.2) → (∀ kv ∈ b, 0 < kv.2) →
    (∀ k, lookup a k = lookup b k) → csum a = csum b := by
  induction a with
  | nil =>
    intro b _ hnb _ hpb hpt
    cases b with
    | nil => rfl
    | cons x t =>
      exfalso
      obtain ⟨xk, xv⟩ := x
      have hx : lookup ((xk, xv) :: t) xk = xv :=
        lookup_of_mem_nodup _ xk xv hnb (by simp)
      have h0 : lookup ([] : SymCounter) xk = 0 := rfl
      have := hpt xk
      rw [h0, hx] at this
      exact absurd this.symm (Nat.ne_of_gt (hpb (xk, xv) (by simp)))
  | cons x t ih =>
    intro b hna hnb hpa hpb hpt
    obtain ⟨xk, xv⟩ := x
    rcases List.pairwise_cons.mp hna with ⟨hhead, htail⟩
    have hxa : lookup ((xk, xv) :: t) xk = xv := by simp [lookup]
    have hxb : lookup b xk = xv := by rw [← hpt xk, hxa]
    have hxv : 0 < xv := hpa (xk, xv) (by simp)
    have hmb : (xk, xv) ∈ b := by
      have := mem_of_lookup_ne_zero b xk (by rw [hxb]; omega)
      rwa [hxb] at this
    have hsb := csum_eraseKey b xk xv hnb hmb
    have hih : csum t = csum (eraseKey b xk) := by
      refine ih (eraseKey b xk) htail (nodupKeys_eraseKey b xk hnb)
        (fun kv hkv => hpa kv (List.mem_cons_of_mem _ hkv))
        (fun kv hkv => hpb kv (List.Sublist.mem hkv (eraseKey_sublist b xk)))
        (fun k => ?_)
      rw [lookup_eraseKey b xk k hnb]
      by_cases hk : k = xk
      · subst hk
        simp [lookup_eq_zero_of_forall_ne t k (fun y hy => (hhead y hy).symm)]
      · have h3 := hpt k
        have h4 : lookup t k = lookup b k := by
          have hne : ¬ (xk = k) := fun hh => hk hh.symm
          simpa [lookup, hne] using h3
        simp [hk, h4]
    have hcons : csum ((xk, xv) :: t) = xv + csum t := by simp [csum]
    rw [hcons, hih, hsb]

/-! ## Parser lemmas -/


theorem parseRule_eq (tracked : List String) (lineno : Nat) (line : String) :
    parseRule tracked lineno line =
      match ruleFields line with
      | [relPath, symbol, countText, rationale] =>
        if !(tracked.contains relPath) then
          .error ("line " ++ toString lineno ++ ": path " ++ relPath ++
            " is not in tracked files")
        else if !(startsWithL xcbChars symbol.data && endsWithL replyChars symbol.data) then
          .error ("line " ++ toString lineno ++ ": invalid reply symbol " ++ symbol)
        else if endsWithL fromReplyChars symbol.data then
          .error ("line " ++ toString lineno ++
            ": parser helpers ending in _from_reply must not appear in this allowlist")
        else
          match parseIntText countText.data with
          | none => .error ("line " ++ toString lineno ++ ": invalid count " ++ countText)
          | some count =>
            if count ≤ 0 then
              .error ("line " ++ toString lineno ++ ": count must be positive")
            else if !(containsStr rationale "bound<=") then
              .error ("line " ++ toString lineno ++
                ": rationale must include measurable bound (missing bound<=)")
            else .ok ((relPath, symbol), count.toNat)
      | _ =>
        .error ("line " ++ toString lineno ++
          ": expected 4 fields (path|symbol|count|rationale)") := rfl

/-- Everything that must have held for one allowlist rule line to be
accepted. -/
theorem parseRule_ok_shape (tracked : List String) (lineno : Nat) (line : String)
    (k : SymKey) (n : Nat) (h : parseRule tracked lineno line = .ok (k, n)) :
    ∃ ct r, ruleFields line = [k.1, k.2, ct, r] ∧
      tracked.contains k.1 = true ∧
      startsWithL xcbChars k.2.data = true ∧
      endsWithL replyChars k.2.data = true ∧
      endsWithL fromReplyChars k.2.data = false ∧
      (∃ c : Int, parseIntText ct.data = some c ∧ 0 < c ∧ n = c.toNat) ∧
      containsStr r "bound<=" = true ∧ 0 < n := by
  rw [parseRule_eq] at h
  split at h
  case h_2 => simp at h
  case h_1 relPath symbol countText rationale heq =>
    split at h
    case isTrue => simp at h
    case isFalse h1 =>
      split at h
      case isTrue => simp at h
      case isFalse h2 =>
        split at h
        case isTrue => simp at h
        case isFalse h3 =>
          split at h
          case h_1 => simp at h
          case h_2 count hv =>
            split at h
            case isTrue => simp at h
            case isFalse h4 =>
              split at h
              case isTrue => simp at h
              case isFalse h5 =>
                injection h with h6
                injection h6 with hk hn
                subst hk
                subst hn
                have h1a : tracked.contains relPath = true := by
                  simpa using h1
                have h2a : startsWithL xcbChars symbol.data = true ∧
                    endsWithL replyChars symbol.data = true := by
                  simpa using h2
                have h3a : endsWithL fromReplyChars symbol.data = false := by
                  simpa using h3
                have h5a : containsStr rationale "bound<=" = true := by
                  simpa using h5
                exact ⟨countText, rationale, heq, h1a, h2a.1, h2a.2, h3a,
                  ⟨count, hv, by omega, rfl⟩, h5a, by omega⟩

theorem parseLines_nil (tr : List String) (ln : Nat) (acc : SymCounter) :
    parseLines tr ln acc [] = .ok (acc, csum acc) := rfl

theorem parseLines_cons (tr : List String) (ln : Nat) (acc : SymCounter)
    (raw : String) (rest : List String) :
    parseLines tr ln acc (raw :: rest) =
      if (pyStrip raw).data.isEmpty || startsWithL ['#'] (pyStrip raw).data then
        parseLines tr (ln + 1) acc rest
      else
        match parseRule tr ln (pyStrip raw) with
        | .error e => .error e
        | .ok (k, n) => parseLines tr (ln + 1) (incr acc k n) rest := rfl

/-- A rule line on which `parseRule` can never succeed forces the whole
parse to fail, no matter where the line sits and what else the file
contains. -/
theorem parseLines_mem_err (tr : List String) (badLine : String)
    (hfail : ∀ m k n, parseRule tr m (pyStrip badLine) ≠ .ok (k, n))
    (hne : (pyStrip badLine).data.isEmpty = false)
    (hnc : startsWithL ['#'] (pyStrip badLine).data = false) :
    ∀ ls ln acc, badLine ∈ ls → ∃ msg, parseLines tr ln acc ls = .error msg := by
  intro ls
  induction ls with
  | nil => intro ln acc hmem; simp at hmem
  | cons raw rest ih =>
    intro ln acc hmem
    rw [parseLines_cons]
    rcases List.mem_cons.mp hmem with hhd | htl
    · subst hhd
      rw [if_neg (by simp [hne, hnc])]
      cases hr : parseRule tr ln (pyStrip badLine) with
      | error e => exact ⟨e, rfl⟩
      | ok kn =>
        obtain ⟨k, n⟩ := kn
        exact absurd hr (hfail ln k n)
    · by_cases hskip : ((pyStrip raw).data.isEmpty || startsWithL ['#'] (pyStrip raw).data) = true
      · rw [if_pos hskip]
        exact ih (ln + 1) acc htl
      · rw [if_neg hskip]
        cases hr : parseRule tr ln (pyStrip raw) with
        | error e => exact ⟨e, rfl⟩
        | ok kn =>
          obtain ⟨k, n⟩ := kn
          exact ih (ln + 1) (incr acc k n) htl

theorem parseLines_ok_total (tr : List String) :
    ∀ ls ln acc e t, parseLines tr ln acc ls = .ok (e, t) → t = csum e := by
  intro ls
  induction ls with
  | nil =>
    intro ln acc e t h
    rw [parseLines_nil] at h
    injection h with h2
    injection h2 with he ht
    rw [← ht, ← he]
  | cons raw rest ih =>
    intro ln acc e t h
    rw [parseLines_cons] at h
    by_cases hskip : ((pyStrip raw).data.isEmpty || startsWithL ['#'] (pyStrip raw).data) = true
    · rw [if_pos hskip] at h
      exact ih (ln + 1) acc e t h
    · rw [if_neg hskip] at h
      cases hr : parseRule tr ln (pyStrip raw) with
      | error e2 => rw [hr] at h; cases h
      | ok kn =>
        obtain ⟨k, n⟩ := kn
        rw [hr] at h
        exact ih (ln + 1) (incr acc k n) e t h

theorem parseLines_ok_inv (tr : List String) :
    ∀ ls ln acc e t, NodupKeys acc → (∀ kv ∈ acc, 0 < kv.2) →
      parseLines tr ln acc ls = .ok (e, t) →
      NodupKeys e ∧ (∀ kv ∈ e, 0 < kv.2) := by
  intro ls
  induction ls with
  | nil =>
    intro ln acc e t hn hp h
    rw [parseLines_nil] at h
    injection h with h2
    injection h2 with he _
    rw [← he]
    exact ⟨hn, hp⟩
  | cons raw rest ih =>
    intro ln acc e t hn hp h
    rw [parseLines_cons] at h
    by_cases hskip : ((pyStrip raw).data.isEmpty || startsWithL ['#'] (pyStrip raw).data) = true
    · rw [if_pos hskip] at h
      exact ih (ln + 1) acc e t hn hp h
    · rw [if_neg hskip] at h
      cases hr : parseRule tr ln (pyStrip raw) with
      | error e2 => rw [hr] at h; cases h
      | ok kn =>
        obtain ⟨k, n⟩ := kn
        rw [hr] at h
        have hpos : 0 < n := by
          obtain ⟨_, _, _, _, _, _, _, _, _, hp9⟩ :=
            parseRule_ok_shape tr ln (pyStrip raw) k n hr
          exact hp9
        exact ih (ln + 1) (incr acc k n) e t (nodupKeys_incr acc k n hn)
          (pos_incr acc k n hp hpos) h

theorem parseLines_lookup_mono (tr : List String) :
    ∀ ls ln acc e t, parseLines tr ln acc ls = .ok (e, t) →
      ∀ k, lookup acc k ≤ lookup e k := by
  intro ls
  induction ls with
  | nil =>
    intro ln acc e t h k
    rw [parseLines_nil] at h
    injection h with h2
    injection h2 with he _
    rw [← he]
  | cons raw rest ih =>
    intro ln acc e t h k
    rw [parseLines_cons] at h
    by_cases hskip : ((pyStrip raw).data.isEmpty || startsWithL ['#'] (pyStrip raw).data) = true
    · rw [if_pos hskip] at h
      exact ih (ln + 1) acc e t h k
    · rw [if_neg hskip] at h
      cases hr : parseRule tr ln (pyStrip raw) with
      | error e2 => rw [hr] at h; cases h
      | ok kn =>
        obtain ⟨k2, n⟩ := kn
        rw [hr] at h
        calc lookup acc k ≤ lookup (incr acc k2 n) k := by
              rw [lookup_incr]; exact Nat.le_add_right _ _
          _ ≤ lookup e k := ih (ln + 1) (incr acc k2 n) e t h k

/-- A rule line in a successfully parsed allowlist contributed its
whole declared count to the expected counter. -/
theorem parseLines_ok_rule (tr : List String) (ruleLine : String)
    (hne : (pyStrip ruleLine).data.isEmpty = false)
    (hnc : startsWithL ['#'] (pyStrip ruleLine).data = false) :
    ∀ ls ln acc e t, parseLines tr ln acc ls = .ok (e, t) → ruleLine ∈ ls →
      ∃ m k n, parseRule tr m (pyStrip ruleLine) = .ok (k, n) ∧ n ≤ lookup e k := by
  intro ls
  induction ls with
  | nil => intro ln acc e t _ hmem; simp at hmem
  | cons raw rest ih =>
    intro ln acc e t h hmem
    rw [parseLines_cons] at h
    rcases List.mem_cons.mp hmem with hhd | htl
    · subst hhd
      rw [if_neg (by simp [hne, hnc])] at h
      cases hr : parseRule tr ln (pyStrip ruleLine) with
      | error e2 => rw [hr] at h; cases h
      | ok kn =>
        obtain ⟨k, n⟩ := kn
        rw [hr] at h
        refine ⟨ln, k, n, hr, ?_⟩
        calc n ≤ lookup (incr acc k n) k := by
              rw [lookup_incr]; simp
          _ ≤ lookup e k := parseLines_lookup_mono tr rest (ln + 1) _ e t h k
    · by_cases hskip : ((pyStrip raw).data.isEmpty || startsWithL ['#'] (pyStrip raw).data) = true
      · rw [if_pos hskip] at h
        exact ih (ln + 1) acc e t h htl
      · rw [if_neg hskip] at h
        cases hr : parseRule tr ln (pyStrip raw) with
        | error e2 => rw [hr] at h; cases h
        | ok kn =>
          obtain ⟨k, n⟩ := kn
          rw [hr] at h
          exact ih (ln + 1) (incr acc k n) e t h htl

/-! ## Scanner factorization

Scanning emits a sequence of `(path, symbol)` keys that depends only on
the file contents, and the counter is the aggregate of unit increments
over that sequence. -/


theorem countK_append (k : SymKey) (a b : List SymKey) :
    countK k (a ++ b) = countK k a + countK k b := by
  induction a with
  | nil => simp [countK]
  | cons x xs ih => simp [countK, ih]; omega

theorem countK_eq_zero (k : SymKey) (ks : List SymKey)
    (h : ∀ x ∈ ks, x ≠ k) : countK k ks = 0 := by
  induction ks with
  | nil => rfl
  | cons x xs ih =>
    simp [countK, h x (by simp), ih (fun y hy => h y (List.mem_cons_of_mem _ hy))]

theorem incrAll_append (c : SymCounter) (ks1 ks2 : List SymKey) :
    incrAll c (ks1 ++ ks2) = incrAll (incrAll c ks1) ks2 := by
  simp [incrAll, List.foldl_append]

theorem lookup_incrAll (ks : List SymKey) :
    ∀ c k, lookup (incrAll c ks) k = lookup c k + countK k ks := by
  induction ks with
  | nil => intro c k; simp [incrAll, countK]
  | cons x xs ih =>
    intro c k
    have hstep : incrAll c (x :: xs) = incrAll (incr c x 1) xs := rfl
    rw [hstep, ih, lookup_incr, countK]
    by_cases h : x = k
    · simp [h]; omega
    · simp [h, show ¬ (k = x) from fun hh => h hh.symm]

theorem csum_incrAll (ks : List SymKey) :
    ∀ c, csum (incrAll c ks) = csum c + ks.length := by
  induction ks with
  | nil => intro c; simp [incrAll]
  | cons x xs ih =>
    intro c
    have hstep : incrAll c (x :: xs) = incrAll (incr c x 1) xs := rfl
    rw [hstep, ih, csum_incr]
    simp
    omega

theorem nodupKeys_incrAll (ks : List SymKey) :
    ∀ c, NodupKeys c → NodupKeys (incrAll c ks) := by
  induction ks with
  | nil => intro c h; exact h
  | cons x xs ih =>
    intro c h
    exact ih (incr c x 1) (nodupKeys_incr c x 1 h)

theorem pos_incrAll (ks : List SymKey) :
    ∀ c, (∀ kv ∈ c, 0 < kv.2) → ∀ kv ∈ incrAll c ks, 0 < kv.2 := by
  induction ks with
  | nil => intro c h; exact h
  | cons x xs ih =>
    intro c h
    exact ih (incr c x 1) (pos_incr c x 1 h (by omega))

theorem scanStep_skip (relPath : String) (a : SymCounter × Nat) (sym : String)
    (h : keptSym sym = false) : scanStep relPath a sym = a := by
  unfold scanStep
  unfold keptSym at h
  by_cases h1 : IGNORED_REPLY_SYMBOLS.contains sym = true
  · rw [if_pos h1]
  · rw [if_neg h1]
    have h2 : endsWithL fromReplyChars sym.data = true := by
      rcases Bool.not_eq_true _ ▸ h1 with h1f
      rw [h1f] at h
      simpa using h
    rw [if_pos h2]

theorem scanStep_count (relPath : String) (a : SymCounter × Nat) (sym : String)
    (h : keptSym sym = true) : scanStep relPath a sym =
      (incr a.1 (relPath, sym) 1, a.2 + 1) := by
  unfold scanStep
  unfold keptSym at h
  rcases Bool.and_eq_true .. ▸ h with ⟨h1, h2⟩
  rw [if_neg (by simpa using h1), if_neg (by simpa using h2)]

theorem scanFold_eq (relPath : String) (syms : List String) :
    ∀ acc : SymCounter × Nat,
      syms.foldl (scanStep relPath) acc =
      (incrAll acc.1 ((syms.filter keptSym).map (fun sym => (relPath, sym))),
       acc.2 + (syms.filter keptSym).length) := by
  induction syms with
  | nil => intro acc; simp [incrAll]
  | cons s rest ih =>
    intro acc
    rw [List.foldl_cons, List.filter_cons]
    cases hk : keptSym s with
    | false =>
      rw [scanStep_skip relPath acc s hk]
      simp only [hk, Bool.false_eq_true, if_false]
      exact ih acc
    | true =>
      rw [scanStep_count relPath acc s hk]
      simp only [hk, if_true, List.map_cons, List.length_cons]
      have hstep : incrAll acc.1 ((relPath, s) ::
          (rest.filter keptSym).map (fun sym => (relPath, sym))) =
          incrAll (incr acc.1 (relPath, s) 1)
            ((rest.filter keptSym).map (fun sym => (relPath, sym))) := rfl
      rw [hstep, ih]
      have : acc.2 + (1 + (rest.filter keptSym).length) =
          acc.2 + 1 + (rest.filter keptSym).length := by omega
      rw [← this]
      congr 1
      omega

theorem scanLine_eq (relPath : String) (acc : SymCounter × Nat) (raw : String) :
    scanLine relPath acc raw =
      (incrAll acc.1 (lineKeys relPath raw),
       acc.2 + (lineKeys relPath raw).length) := by
  unfold scanLine lineKeys
  by_cases hc : startsWithL ['/', '/'] (stripChars raw.data) = true
  · rw [if_pos hc, if_pos hc]
    simp [incrAll]
  · rw [if_neg hc, if_neg hc]
    rw [scanFold_eq]
    simp

theorem scanFile_eq (relPath : String) (lines : List String) :
    ∀ acc, scanFile relPath acc lines =
      (incrAll acc.1 (fileKeys relPath lines),
       acc.2 + (fileKeys relPath lines).length) := by
  induction lines with
  | nil => intro acc; simp [scanFile, fileKeys, incrAll]
  | cons l ls ih =>
    intro acc
    have hstep : scanFile relPath acc (l :: ls) =
        scanFile relPath (scanLine relPath acc l) ls := rfl
    rw [hstep, ih, scanLine_eq, fileKeys, incrAll_append]
    simp
    omega

theorem trackKeys_cons (fs : String → Option (List String)) (rp : String)
    (rest : List String) :
    trackKeys fs (rp :: rest) =
      fileKeys rp ((fs rp).getD []) ++ trackKeys fs rest := rfl

theorem collectGo_cons (fs : String → Option (List String)) (rp : String)
    (rest : List String) (acc : SymCounter × Nat) :
    collectGo fs (rp :: rest) acc =
      match fs rp with
      | none => .error ("tracked file not found: " ++ rp)
      | some lines => collectGo fs rest (scanFile rp acc lines) := rfl

theorem collectGo_ok (fs : String → Option (List String)) :
    ∀ tracked acc a t, collectGo fs tracked acc = .ok (a, t) →
      a = incrAll acc.1 (trackKeys fs tracked) ∧
      t = acc.2 + (trackKeys fs tracked).length := by
  intro tracked
  induction tracked with
  | nil =>
    intro acc a t h
    injection h with h2
    rw [h2]
    simp [trackKeys, incrAll]
  | cons rp rest ih =>
    intro acc a t h
    rw [collectGo_cons] at h
    cases hfs : fs rp with
    | none => rw [hfs] at h; cases h
    | some lines =>
      rw [hfs] at h
      obtain ⟨ha, ht⟩ := ih (scanFile rp acc lines) a t h
      have hgd : (fs rp).getD [] = lines := by rw [hfs]; rfl
      constructor
      · rw [ha, scanFile_eq, trackKeys_cons, hgd, incrAll_append]
      · rw [ht, scanFile_eq, trackKeys_cons, hgd]
        simp
        omega

theorem collectGo_present (fs : String → Option (List String)) :
    ∀ tracked acc a t, collectGo fs tracked acc = .ok (a, t) →
      ∀ g ∈ tracked, fs g ≠ none := by
  intro tracked
  induction tracked with
  | nil => intro acc a t _ g hg; simp at hg
  | cons rp rest ih =>
    intro acc a t h g hg
    rw [collectGo_cons] at h
    cases hfs : fs rp with
    | none => rw [hfs] at h; cases h
    | some lines =>
      rw [hfs] at h
      rcases List.mem_cons.mp hg with h1 | h2
      · subst h1; rw [hfs]; simp
      · exact ih (scanFile rp acc lines) a t h g h2

theorem collectGo_eq (fs : String → Option (List String)) :
    ∀ tracked acc, (∀ g ∈ tracked, fs g ≠ none) →
      collectGo fs tracked acc =
        .ok (incrAll acc.1 (trackKeys fs tracked),
          acc.2 + (trackKeys fs tracked).length) := by
  intro tracked
  induction tracked with
  | nil => intro acc _; simp [collectGo, trackKeys, incrAll]
  | cons rp rest ih =>
    intro acc hpres
    rw [collectGo_cons]
    cases hfs : fs rp with
    | none => exact absurd hfs (hpres rp (by simp))
    | some lines =>
      have hgd : (fs rp).getD [] = lines := by rw [hfs]; rfl
      have hred : (match some lines with
          | none => Except.error ("tracked file not found: " ++ rp)
          | some ls => collectGo fs rest (scanFile rp acc ls)) =
          collectGo fs rest (scanFile rp acc lines) := rfl
      rw [hred,
        ih (scanFile rp acc lines) (fun g hg => hpres g (List.mem_cons_of_mem _ hg)),
        scanFile_eq, trackKeys_cons, hgd, incrAll_append]
      simp
      omega

theorem collect_ok_shape (fs : String → Option (List String)) (tracked : List String)
    (a : SymCounter) (t : Nat) (h : collect_actual fs tracked = .ok (a, t)) :
    a = incrAll [] (trackKeys fs tracked) ∧ t = (trackKeys fs tracked).length := by
  obtain ⟨h1, h2⟩ := collectGo_ok fs tracked ([], 0) a t h
  exact ⟨h1, by simpa using h2⟩

theorem collect_ok_total (fs : String → Option (List String)) (tracked : List String)
    (a : SymCounter) (t : Nat) (h : collect_actual fs tracked = .ok (a, t)) :
    t = csum a := by
  obtain ⟨h1, h2⟩ := collect_ok_shape fs tracked a t h
  rw [h1, h2, csum_incrAll]
  simp [csum]

theorem collect_ok_inv (fs : String → Option (List String)) (tracked : List String)
    (a : SymCounter) (t : Nat) (h : collect_actual fs tracked = .ok (a, t)) :
    NodupKeys a ∧ (∀ kv ∈ a, 0 < kv.2) := by
  obtain ⟨h1, _⟩ := collect_ok_shape fs tracked a t h
  rw [h1]
  exact ⟨nodupKeys_incrAll _ [] (by simp [NodupKeys]),
    pos_incrAll _ [] (by simp)⟩

theorem parse_ok_total (contents : Option (List String)) (tracked : List String)
    (e : SymCounter) (t : Nat)
    (h : parse_allowlist contents tracked = .ok (e, t)) : t = csum e := by
  cases contents with
  | none => cases h
  | some lines => exact parseLines_ok_total tracked lines 1 [] e t h

theorem parse_ok_inv (contents : Option (List String)) (tracked : List String)
    (e : SymCounter) (t : Nat)
    (h : parse_allowlist contents tracked = .ok (e, t)) :
    NodupKeys e ∧ (∀ kv ∈ e, 0 < kv.2) := by
  cases contents with
  | none => cases h
  | some lines =>
    exact parseLines_ok_inv tracked lines 1 [] e t (by simp [NodupKeys]) (by simp) h

/-- The defensive total check can never fire: equal counters force
equal totals. -/
theorem totals_eq_of_ceq (contents : Option (List String))
    (fs : String → Option (List String)) (tracked : List String)
    (e a : SymCounter) (et at2 : Nat)
    (he : parse_allowlist contents tracked = .ok (e, et))
    (ha : collect_actual fs tracked = .ok (a, at2))
    (heq : ceq e a = true) : et = at2 := by
  obtain ⟨hne, hpe⟩ := parse_ok_inv contents tracked e et he
  obtain ⟨hna, hpa⟩ := collect_ok_inv fs tracked a at2 ha
  rw [parse_ok_total contents tracked e et he,
    collect_ok_total fs tracked a at2 ha]
  exact csum_eq_of_pointwise e a hne hna hpe hpa (ceq_lookup e a heq)

/-! ## Driver lemmas -/

theorem run_def_ok (al : Option (List String)) (fs : String → Option (List String))
    (e a : SymCounter) (et at2 : Nat)
    (he : parse_allowlist al DEFAULT_TRACKED_FILES = .ok (e, et))
    (ha : collect_actual fs DEFAULT_TRACKED_FILES = .ok (a, at2)) :
    run al fs =
      if ceq e a then
        if et ≠ at2 then
          ⟨1, [successLine at2 DEFAULT_TRACKED_FILES.length],
            ["error: internal error: equal counters but different totals (expected=" ++
              toString et ++ " actual=" ++ toString at2 ++ ")"]⟩
        else ⟨0, [successLine at2 DEFAULT_TRACKED_FILES.length], []⟩
      else ⟨1, [], [mismatchMsg e a]⟩ := by
  unfold run
  rw [he, ha]

theorem run_success (al : Option (List String)) (fs : String → Option (List String))
    (e a : SymCounter) (et at2 : Nat)
    (he : parse_allowlist al DEFAULT_TRACKED_FILES = .ok (e, et))
    (ha : collect_actual fs DEFAULT_TRACKED_FILES = .ok (a, at2))
    (heq : ceq e a = true) :
    run al fs = ⟨0, [successLine at2 DEFAULT_TRACKED_FILES.length], []⟩ := by
  rw [run_def_ok al fs e a et at2 he ha, if_pos heq,
    if_neg (show ¬ (et ≠ at2) from fun hc =>
      hc (totals_eq_of_ceq al fs DEFAULT_TRACKED_FILES e a et at2 he ha heq))]

theorem run_mismatch (al : Option (List String)) (fs : String → Option (List String))
    (e a : SymCounter) (et at2 : Nat)
    (he : parse_allowlist al DEFAULT_TRACKED_FILES = .ok (e, et))
    (ha : collect_actual fs DEFAULT_TRACKED_FILES = .ok (a, at2))
    (heq : ceq e a = false) :
    run al fs = ⟨1, [], [mismatchMsg e a]⟩ := by
  rw [run_def_ok al fs e a et at2 he ha, if_neg (by simp [heq])]

theorem run_parse_err (al : Option (List String)) (fs : String → Option (List String))
    (msg : String) (he : parse_allowlist al DEFAULT_TRACKED_FILES = .error msg) :
    run al fs = ⟨1, [], ["error: " ++ msg]⟩ := by
  unfold run
  rw [he]

theorem run_stdout_exit_zero (al : Option (List String))
    (fs : String → Option (List String)) (h : (run al fs).stdout ≠ []) :
    (run al fs).exitCode = 0 := by
  cases hp : parse_allowlist al DEFAULT_TRACKED_FILES with
  | error msg => rw [run_parse_err al fs msg hp] at h; simp at h
  | ok pr =>
    obtain ⟨e, et⟩ := pr
    cases hc : collect_actual fs DEFAULT_TRACKED_FILES with
    | error msg =>
      have hrun : run al fs = ⟨1, [], ["error: " ++ msg]⟩ := by
        unfold run
        rw [hp, hc]
      rw [hrun] at h
      simp at h
    | ok pr2 =>
      obtain ⟨a, at2⟩ := pr2
      cases hq : ceq e a with
      | true => rw [run_success al fs e a et at2 hp hc hq]
      | false =>
        rw [run_mismatch al fs e a et at2 hp hc hq] at h
        simp at h

/-! ## Matcher structure lemmas -/

theorem stripLit_some (p : List Char) :
    ∀ cs r, stripLit p cs = some r → cs = p ++ r := by
  induction p with
  | nil =>
    intro cs r h
    injection h
  | cons pc ps ih =>
    intro cs r h
    cases cs with
    | nil => cases h
    | cons c cs2 =>
      unfold stripLit at h
      by_cases hc : c = pc
      · rw [if_pos hc] at h
        rw [hc, ih cs2 r h]
        rfl
      · rw [if_neg hc] at h
        cases h

theorem tryClose_some (cs r : List Char) (h : tryClose cs = some r) :
    ∃ ws, cs = replyChars ++ ws ++ '(' :: r ∧ ∀ c ∈ ws, isPySpace c = true := by
  unfold tryClose at h
  split at h
  case h_1 => cases h
  case h_2 cs1 heq =>
    split at h
    case h_2 => cases h
    case h_1 rest heq2 =>
      injection h with hr
      refine ⟨cs1.takeWhile isPySpace, ?_, fun c hc => List.mem_takeWhile_imp hc⟩
      rw [stripLit_some replyChars cs cs1 heq, List.append_assoc]
      nth_rewrite 1 [show cs1 = cs1.takeWhile isPySpace ++ cs1.dropWhile isPySpace from
        (List.takeWhile_append_dropWhile ..).symm]
      rw [heq2, hr]

theorem greedyBody_some :
    ∀ cs acc body r, greedyBody acc cs = some (body, r) →
      ∃ tail ws, body = acc.reverse ++ tail ∧
        cs = tail ++ replyChars ++ ws ++ '(' :: r ∧
        (∀ c ∈ tail, isWordChar c = true) ∧ (∀ c ∈ ws, isPySpace c = true) ∧
        (acc = [] → tail ≠ []) := by
  intro cs
  induction cs with
  | nil =>
    intro acc body r h
    unfold greedyBody at h
    by_cases ha : acc.isEmpty = true
    · rw [if_pos ha] at h; cases h
    · rw [if_neg ha] at h
      rw [show tryClose [] = none from rfl] at h
      cases h
  | cons c cs2 ih =>
    intro acc body r h
    unfold greedyBody at h
    by_cases hw : isWordChar c = true
    · rw [if_pos hw] at h
      cases hg : greedyBody (c :: acc) cs2 with
      | some pr =>
        rw [hg] at h
        injection h with h2
        rw [show pr = (body, r) from h2] at hg
        obtain ⟨tail, ws, hb, hcs, hwt, hws, _⟩ := ih (c :: acc) body r hg
        refine ⟨c :: tail, ws, ?_, ?_, ?_, hws, ?_⟩
        · rw [hb]
          simp
        · rw [hcs]
          rfl
        · intro x hx
          rcases List.mem_cons.mp hx with h1 | h2
          · rw [h1]; exact hw
          · exact hwt x h2
        · intro _
          simp
      | none =>
        rw [hg] at h
        by_cases ha : acc.isEmpty = true
        · rw [if_pos ha] at h; cases h
        · rw [if_neg ha] at h
          cases ht : tryClose (c :: cs2) with
          | none => rw [ht] at h; cases h
          | some r2 =>
            rw [ht] at h
            injection h with h2
            injection h2 with hb hr
            obtain ⟨ws, hcs, hws⟩ := tryClose_some (c :: cs2) r2 ht
            refine ⟨[], ws, by rw [← hb]; simp, ?_, by simp, ?_, ?_⟩
            · rw [hcs, hr]
              rfl
            · exact hws
            · intro hacc
              exact absurd (by rw [hacc]; rfl) ha
    · rw [if_neg hw] at h
      by_cases ha : acc.isEmpty = true
      · rw [if_pos ha] at h; cases h
      · rw [if_neg ha] at h
        cases ht : tryClose (c :: cs2) with
        | none => rw [ht] at h; cases h
        | some r2 =>
          rw [ht] at h
          injection h with h2
          injection h2 with hb hr
          obtain ⟨ws, hcs, hws⟩ := tryClose_some (c :: cs2) r2 ht
          refine ⟨[], ws, by rw [← hb]; simp, ?_, by simp, ?_, ?_⟩
          · rw [hcs, hr]
            rfl
          · exact hws
          · intro hacc
            exact absurd (by rw [hacc]; rfl) ha

theorem tryMatchAt_some (cs : List Char) (sym : String) (r : List Char)
    (h : tryMatchAt cs = some (sym, r)) :
    ∃ body ws, body ≠ [] ∧ (∀ c ∈ body, isWordChar c = true) ∧
      (∀ c ∈ ws, isPySpace c = true) ∧
      sym.data = xcbChars ++ body ++ replyChars ∧
      cs = sym.data ++ ws ++ '(' :: r := by
  unfold tryMatchAt at h
  split at h
  case h_1 => cases h
  case h_2 cs1 heq =>
    split at h
    case h_1 => cases h
    case h_2 body rest heq2 =>
      injection h with h2
      injection h2 with hsym hr
      obtain ⟨tail, ws, hb, hcs, hwt, hws, hne⟩ := greedyBody_some cs1 [] body rest heq2
      have hbt : body = tail := by simpa using hb
      have hsd : sym.data = xcbChars ++ body ++ replyChars := by
        rw [← hsym]
      refine ⟨body, ws, ?_, ?_, hws, hsd, ?_⟩
      · rw [hbt]; exact hne rfl
      · rw [hbt]; exact hwt
      · rw [stripLit_some xcbChars cs cs1 heq, hcs, hsd, hbt, hr]
        simp

theorem findMatchesAux_mem :
    ∀ fuel b cs (sym : String), sym ∈ findMatchesAux fuel b cs →
      ∃ pre ws r, cs = pre ++ sym.data ++ ws ++ '(' :: r ∧
        (∀ c ∈ ws, isPySpace c = true) ∧
        ∃ body, body ≠ [] ∧ (∀ c ∈ body, isWordChar c = true) ∧
          sym.data = xcbChars ++ body ++ replyChars := by
  intro fuel
  induction fuel with
  | zero => intro b cs sym h; simp [findMatchesAux] at h
  | succ fuel ih =>
    intro b cs sym h
    cases cs with
    | nil => simp [findMatchesAux] at h
    | cons c cs2 =>
      unfold findMatchesAux at h
      by_cases hb : b = true
      · rw [if_pos hb] at h
        obtain ⟨pre, ws, r, hcs, hws, hbody⟩ := ih (isWordChar c) cs2 sym h
        refine ⟨c :: pre, ws, r, ?_, hws, hbody⟩
        rw [hcs]
        rfl
      · rw [if_neg hb] at h
        cases hm : tryMatchAt (c :: cs2) with
        | none =>
          rw [hm] at h
          obtain ⟨pre, ws, r, hcs, hws, hbody⟩ := ih (isWordChar c) cs2 sym h
          refine ⟨c :: pre, ws, r, ?_, hws, hbody⟩
          rw [hcs]
          rfl
        | some pr =>
          obtain ⟨sym2, rest⟩ := pr
          rw [hm] at h
          rcases List.mem_cons.mp h with hhd | htl
          · rw [hhd]
            obtain ⟨body, ws, hbne, hwt, hws, hsd, hcs⟩ :=
              tryMatchAt_some (c :: cs2) sym2 rest hm
            refine ⟨[], ws, rest, ?_, hws, body, hbne, hwt, hsd⟩
            rw [hcs]
            rfl
          · obtain ⟨pre, ws, r, hcs, hws, hbody⟩ := ih false rest sym htl
            obtain ⟨body2, ws2, _, _, hws2, hsd2, hcs2⟩ :=
              tryMatchAt_some (c :: cs2) sym2 rest hm
            refine ⟨sym2.data ++ ws2 ++ ['('] ++ pre, ws, r, ?_, hws, hbody⟩
            rw [hcs2, hcs]
            simp

/-- Every symbol the scanner counts on a line occurs in that line as
the literal prefix, a nonempty word-character body, and the literal
suffix, followed by optional whitespace and then an opening
parenthesis. -/
theorem findMatches_shape (line sym : String) (h : sym ∈ findMatches line) :
    ∃ pre body ws r,
      line.data = pre ++ sym.data ++ ws ++ '(' :: r ∧
      sym.data = xcbChars ++ body ++ replyChars ∧ body ≠ [] ∧
      (∀ c ∈ body, isWordChar c = true) ∧ (∀ c ∈ ws, isPySpace c = true) := by
  obtain ⟨pre, ws, r, hcs, hws, body, hbne, hwt, hsd⟩ :=
    findMatchesAux_mem (line.data.length + 1) false line.data sym h
  exact ⟨pre, body, ws, r, hcs, hsd, hbne, hwt, hws⟩

/-! ## Key-sequence lemmas -/

theorem fileKeys_append (rp : String) (l1 l2 : List String) :
    fileKeys rp (l1 ++ l2) = fileKeys rp l1 ++ fileKeys rp l2 := by
  induction l1 with
  | nil => rfl
  | cons l ls ih => simp [fileKeys, ih]

theorem trackKeys_append (fs : String → Option (List String)) (t1 t2 : List String) :
    trackKeys fs (t1 ++ t2) = trackKeys fs t1 ++ trackKeys fs t2 := by
  induction t1 with
  | nil => rfl
  | cons rp rest ih => simp [trackKeys, ih]

theorem trackKeys_congr (fs fs2 : String → Option (List String)) :
    ∀ tracked, (∀ g ∈ tracked, fs2 g = fs g) →
      trackKeys fs2 tracked = trackKeys fs tracked := by
  intro tracked
  induction tracked with
  | nil => intro _; rfl
  | cons rp rest ih =>
    intro h
    rw [trackKeys_cons, trackKeys_cons, h rp (by simp),
      ih (fun g hg => h g (List.mem_cons_of_mem _ hg))]

theorem mem_lineKeys (rp raw : String) (x : SymKey) (h : x ∈ lineKeys rp raw) :
    x.2 ∈ findMatches raw := by
  unfold lineKeys at h
  split at h
  · simp at h
  · rcases List.mem_map.mp h with ⟨sym, hsym, hx⟩
    rw [← hx]
    exact List.mem_of_mem_filter hsym

theorem mem_fileKeys (rp : String) :
    ∀ lines x, x ∈ fileKeys rp lines → ∃ raw, x.2 ∈ findMatches raw := by
  intro lines
  induction lines with
  | nil => intro x h; simp [fileKeys] at h
  | cons l ls ih =>
    intro x h
    rcases List.mem_append.mp h with h1 | h2
    · exact ⟨l, mem_lineKeys rp l x h1⟩
    · exact ih x h2

theorem mem_trackKeys (fs : String → Option (List String)) :
    ∀ tracked x, x ∈ trackKeys fs tracked → ∃ raw, x.2 ∈ findMatches raw := by
  intro tracked
  induction tracked with
  | nil => intro x h; simp [trackKeys] at h
  | cons rp rest ih =>
    intro x h
    rcases List.mem_append.mp h with h1 | h2
    · exact mem_fileKeys rp _ x h1
    · exact ih x h2

theorem lineKeys_nil_of_ignored (rp raw : String)
    (h : ∀ s ∈ findMatches raw, IGNORED_REPLY_SYMBOLS.contains s = true) :
    lineKeys rp raw = [] := by
  unfold lineKeys
  split
  · rfl
  · have hf : (findMatches raw).filter keptSym = [] := by
      rw [List.filter_eq_nil_iff]
      intro s hs
      have hks : keptSym s = false := by
        unfold keptSym
        rw [h s hs]
        rfl
      simp [hks]
    rw [hf]
    rfl

theorem fileKeys_nil_of_ignored (rp : String) :
    ∀ lines, (∀ raw ∈ lines, ∀ s ∈ findMatches raw,
        IGNORED_REPLY_SYMBOLS.contains s = true) →
      fileKeys rp lines = [] := by
  intro lines
  induction lines with
  | nil => intro _; rfl
  | cons l ls ih =>
    intro h
    show lineKeys rp l ++ fileKeys rp ls = []
    rw [lineKeys_nil_of_ignored rp l (h l (by simp)),
      ih (fun raw hraw => h raw (List.mem_cons_of_mem _ hraw))]
    rfl

theorem collectGo_congr (fs fs2 : String → Option (List String)) :
    ∀ tracked, (∀ g ∈ tracked, fs2 g = fs g ∨
        (∃ l l2, fs g = some l ∧ fs2 g = some l2 ∧ fileKeys g l2 = fileKeys g l)) →
      ∀ acc, collectGo fs2 tracked acc = collectGo fs tracked acc := by
  intro tracked
  induction tracked with
  | nil => intro _ acc; rfl
  | cons rp rest ih =>
    intro hrel acc
    rw [collectGo_cons, collectGo_cons]
    rcases hrel rp (by simp) with heq | ⟨l, l2, hl, hl2, hk⟩
    · rw [heq]
      cases hfs : fs rp with
      | none => rfl
      | some lines =>
        show collectGo fs2 rest (scanFile rp acc lines) =
          collectGo fs rest (scanFile rp acc lines)
        exact ih (fun g hg => hrel g (List.mem_cons_of_mem _ hg)) _
    · rw [hl, hl2]
      show collectGo fs2 rest (scanFile rp acc l2) =
        collectGo fs rest (scanFile rp acc l)
      have hsf : scanFile rp acc l2 = scanFile rp acc l := by
        rw [scanFile_eq, scanFile_eq, hk]
      rw [hsf]
      exact ih (fun g hg => hrel g (List.mem_cons_of_mem _ hg)) _

/-! ## Claim theorems -/

/-- C1: for every allowlist that parses successfully and every source
tree whose tracked files all scan successfully, if the expected counter
equals the actual counter, the driver returns exit code 0 and prints
exactly the one success line on stdout. -/
theorem c1_counter_agreement_exits_zero
    (al : List String) (fs : String → Option (List String))
    (e a : SymCounter) (et at2 : Nat)
    (he : parse_allowlist (some al) DEFAULT_TRACKED_FILES = .ok (e, et))
    (ha : collect_actual fs DEFAULT_TRACKED_FILES = .ok (a, at2))
    (heq : ceq e a = true) :
    run (some al) fs = ⟨0, [successLine at2 DEFAULT_TRACKED_FILES.length], []⟩ :=
  run_success (some al) fs e a et at2 he ha heq

theorem c1_witness :
    run (some ["src/menu.c|xcb_query_pointer_reply|5|bound<=5 per frame"]) sampleFS =
      ⟨0, [successLine 5 DEFAULT_TRACKED_FILES.length], []⟩ :=
  c1_counter_agreement_exits_zero
    ["src/menu.c|xcb_query_pointer_reply|5|bound<=5 per frame"] sampleFS
    sampleCounter sampleCounter 5 5 (by rfl) (by rfl) (by decide)

/-- C2: reconciliation is strict multiset equality in both directions:
a key present in the expected counter with a zero actual count (stale
rule), and a key present in the actual counter with a zero expected
count (undeclared usage), each make the run return exit code 1 through
the same policy-mismatch branch, with the same diagnostic shape. -/
theorem c2_stale_or_undeclared_key_fails
    (al : List String) (fs : String → Option (List String))
    (e a : SymCounter) (et at2 : Nat) (k : SymKey)
    (he : parse_allowlist (some al) DEFAULT_TRACKED_FILES = .ok (e, et))
    (ha : collect_actual fs DEFAULT_TRACKED_FILES = .ok (a, at2))
    (hk : ((∃ v, (k, v) ∈ e) ∧ lookup a k = 0) ∨
          ((∃ v, (k, v) ∈ a) ∧ lookup e k = 0)) :
    run (some al) fs = ⟨1, [], [mismatchMsg e a]⟩ := by
  have hne : lookup e k ≠ lookup a k := by
    rcases hk with ⟨⟨v, hv⟩, hz⟩ | ⟨⟨v, hv⟩, hz⟩
    · obtain ⟨hnod, hpos⟩ := parse_ok_inv (some al) DEFAULT_TRACKED_FILES e et he
      have hl : lookup e k = v := lookup_of_mem_nodup e k v hnod hv
      have hvp := hpos (k, v) hv
      rw [hl, hz]
      omega
    · obtain ⟨hnod, hpos⟩ := collect_ok_inv fs DEFAULT_TRACKED_FILES a at2 ha
      have hl : lookup a k = v := lookup_of_mem_nodup a k v hnod hv
      have hvp := hpos (k, v) hv
      rw [hl, hz]
      omega
  exact run_mismatch (some al) fs e a et at2 he ha (ceq_false_of_lookup_ne e a k hne)

theorem c2_witness :
    run (some ["src/wm.c|xcb_get_geometry_reply|1|bound<=1 startup"]) sampleFS =
      ⟨1, [], [mismatchMsg [(("src/wm.c", "xcb_get_geometry_reply"), 1)]
        sampleCounter]⟩ :=
  c2_stale_or_undeclared_key_fails
    ["src/wm.c|xcb_get_geometry_reply|1|bound<=1 startup"] sampleFS
    [(("src/wm.c", "xcb_get_geometry_reply"), 1)] sampleCounter 1 5
    ("src/wm.c", "xcb_get_geometry_reply") (by rfl) (by rfl)
    (Or.inl ⟨⟨1, by decide⟩, by decide⟩)

/-- C3: two allowlist rows for the same key with counts 2 and 3 are
summed into one expected slot of 5 (not overwritten), and reconcile
against a source tree with exactly five counted occurrences at that
key, so the run passes. -/
theorem c3_duplicate_rows_accumulate :
    parse_allowlist (some sampleAllowlist) DEFAULT_TRACKED_FILES =
      .ok (sampleCounter, 5) ∧
    collect_actual sampleFS DEFAULT_TRACKED_FILES = .ok (sampleCounter, 5) ∧
    lookup sampleCounter ("src/menu.c", "xcb_query_pointer_reply") = 2 + 3 ∧
    run (some sampleAllowlist) sampleFS =
      ⟨0, [successLine 5 DEFAULT_TRACKED_FILES.length], []⟩ :=
  ⟨by rfl, by rfl, by decide, by decide⟩

/-- C4: whenever both phases succeed and the counters compare equal,
the totals agree; each total is the sum of its counter's values, no key
is ever stored with a zero count, the run exits 0, and (for all runs)
the internal-consistency branch is unreachable: a run that printed the
success line always exits 0. -/
theorem c4_totals_agree_internal_branch_unreachable
    (al : Option (List String)) (fs : String → Option (List String))
    (e a : SymCounter) (et at2 : Nat)
    (he : parse_allowlist al DEFAULT_TRACKED_FILES = .ok (e, et))
    (ha : collect_actual fs DEFAULT_TRACKED_FILES = .ok (a, at2))
    (heq : ceq e a = true) :
    et = at2 ∧ et = csum e ∧ at2 = csum a ∧
    (∀ kv ∈ e, 0 < kv.2) ∧ (∀ kv ∈ a, 0 < kv.2) ∧
    (run al fs).exitCode = 0 ∧
    (∀ al2 fs2, (run al2 fs2).stdout ≠ [] → (run al2 fs2).exitCode = 0) := by
  refine ⟨totals_eq_of_ceq al fs DEFAULT_TRACKED_FILES e a et at2 he ha heq,
    parse_ok_total al DEFAULT_TRACKED_FILES e et he,
    collect_ok_total fs DEFAULT_TRACKED_FILES a at2 ha,
    (parse_ok_inv al DEFAULT_TRACKED_FILES e et he).2,
    (collect_ok_inv fs DEFAULT_TRACKED_FILES a at2 ha).2,
    ?_, fun al2 fs2 h => run_stdout_exit_zero al2 fs2 h⟩
  rw [run_success al fs e a et at2 he ha heq]

theorem c4_witness :
    5 = 5 ∧ 5 = csum sampleCounter ∧ 5 = csum sampleCounter ∧
    (∀ kv ∈ sampleCounter, 0 < kv.2) ∧ (∀ kv ∈ sampleCounter, 0 < kv.2) ∧
    (run (some sampleAllowlist) sampleFS).exitCode = 0 ∧
    (∀ al2 fs2, (run al2 fs2).stdout ≠ [] → (run al2 fs2).exitCode = 0) :=
  c4_totals_agree_internal_branch_unreachable (some sampleAllowlist) sampleFS
    sampleCounter sampleCounter 5 5 (by rfl) (by rfl) (by decide)

/-- C5: a rule line whose rationale field lacks the literal substring
bound<= makes the whole parse fail, so every run with that allowlist
exits 1 without printing the success line, regardless of counts. -/
theorem c5_missing_bound_marker_fails
    (al : List String) (badLine : String)
    (hmem : badLine ∈ al)
    (hne : (pyStrip badLine).data.isEmpty = false)
    (hnc : startsWithL ['#'] (pyStrip badLine).data = false)
    (p s ct r : String)
    (hfields : ruleFields (pyStrip badLine) = [p, s, ct, r])
    (hbound : containsStr r "bound<=" = false) :
    (∃ msg, parse_allowlist (some al) DEFAULT_TRACKED_FILES = .error msg) ∧
    ∀ fs, (run (some al) fs).exitCode = 1 ∧ (run (some al) fs).stdout = [] := by
  have hfail : ∀ m k n,
      parseRule DEFAULT_TRACKED_FILES m (pyStrip badLine) ≠ .ok (k, n) := by
    intro m k n hok
    obtain ⟨ct2, r2, hrf, _, _, _, _, _, hb, _⟩ :=
      parseRule_ok_shape DEFAULT_TRACKED_FILES m (pyStrip badLine) k n hok
    rw [hfields] at hrf
    injection hrf with h1 hrf
    injection hrf with h2 hrf
    injection hrf with h3 hrf
    injection hrf with h4 _
    rw [← h4] at hb
    rw [hbound] at hb
    cases hb
  obtain ⟨msg, hmsg⟩ :=
    parseLines_mem_err DEFAULT_TRACKED_FILES badLine hfail hne hnc al 1 [] hmem
  refine ⟨⟨msg, hmsg⟩, fun fs => ?_⟩
  rw [run_parse_err (some al) fs msg hmsg]
  exact ⟨rfl, rfl⟩

theorem c5_witness :
    (∃ msg, parse_allowlist
      (some ["src/menu.c|xcb_query_pointer_reply|5|measured carefully"])
      DEFAULT_TRACKED_FILES = .error msg) ∧
    ∀ fs, (run (some ["src/menu.c|xcb_query_pointer_reply|5|measured carefully"])
        fs).exitCode = 1 ∧
      (run (some ["src/menu.c|xcb_query_pointer_reply|5|measured carefully"])
        fs).stdout = [] :=
  c5_missing_bound_marker_fails
    ["src/menu.c|xcb_query_pointer_reply|5|measured carefully"]
    "src/menu.c|xcb_query_pointer_reply|5|measured carefully"
    (by decide) (by decide) (by decide)
    "src/menu.c" "xcb_query_pointer_reply" "5" "measured carefully"
    (by decide) (by decide)

/-- C9: an allowlist row whose symbol ends with the reserved suffix
_from_reply is rejected by the parser, so every run with that allowlist
exits 1 without printing the success line, even if the declared count
would reconcile. -/
theorem c9_from_reply_symbol_rejected
    (al : List String) (badLine : String)
    (hmem : badLine ∈ al)
    (hne : (pyStrip badLine).data.isEmpty = false)
    (hnc : startsWithL ['#'] (pyStrip badLine).data = false)
    (p s ct r : String)
    (hfields : ruleFields (pyStrip badLine) = [p, s, ct, r])
    (hsym : endsWithL fromReplyChars s.data = true) :
    (∃ msg, parse_allowlist (some al) DEFAULT_TRACKED_FILES = .error msg) ∧
    ∀ fs, (run (some al) fs).exitCode = 1 ∧ (run (some al) fs).stdout = [] := by
  have hfail : ∀ m k n,
      parseRule DEFAULT_TRACKED_FILES m (pyStrip badLine) ≠ .ok (k, n) := by
    intro m k n hok
    obtain ⟨ct2, r2, hrf, _, _, _, hfr, _, _, _⟩ :=
      parseRule_ok_shape DEFAULT_TRACKED_FILES m (pyStrip badLine) k n hok
    rw [hfields] at hrf
    injection hrf with h1 hrf
    injection hrf with h2 _
    rw [← h2] at hfr
    rw [hsym] at hfr
    cases hfr
  obtain ⟨msg, hmsg⟩ :=
    parseLines_mem_err DEFAULT_TRACKED_FILES badLine hfail hne hnc al 1 [] hmem
  refine ⟨⟨msg, hmsg⟩, fun fs => ?_⟩
  rw [run_parse_err (some al) fs msg hmsg]
  exact ⟨rfl, rfl⟩

theorem c9_witness :
    (∃ msg, parse_allowlist
      (some ["src/menu.c|xcb_get_property_from_reply|1|bound<=1 parse helper"])
      DEFAULT_TRACKED_FILES = .error msg) ∧
    ∀ fs, (run (some ["src/menu.c|xcb_get_property_from_reply|1|bound<=1 parse helper"])
        fs).exitCode = 1 ∧
      (run (some ["src/menu.c|xcb_get_property_from_reply|1|bound<=1 parse helper"])
        fs).stdout = [] :=
  c9_from_reply_symbol_rejected
    ["src/menu.c|xcb_get_property_from_reply|1|bound<=1 parse helper"]
    "src/menu.c|xcb_get_property_from_reply|1|bound<=1 parse helper"
    (by decide) (by decide) (by decide)
    "src/menu.c" "xcb_get_property_from_reply" "1" "bound<=1 parse helper"
    (by decide) (by decide)

/-- C6 counterexample: on the line xcb_grab_pointer_reply (c); the
character immediately after the symbol occurrence is a space, not the
opening parenthesis, yet the scanner matches and counts it — the regex
permits whitespace between the token and the parenthesis. -/
theorem c6_counterexample :
    findMatches "xcb_grab_pointer_reply (c);" = ["xcb_grab_pointer_reply"] ∧
    "xcb_grab_pointer_reply (c);".data =
      "xcb_grab_pointer_reply".data ++ ' ' :: '(' :: "c);".data ∧
    lineKeys "src/menu.c" "xcb_grab_pointer_reply (c);" =
      [("src/menu.c", "xcb_grab_pointer_reply")] :=
  ⟨by decide, by decide, by decide⟩

/-- C6 (amended): the scanner recognizes a call-site token only as the
fixed prefix, a nonempty alphanumeric/underscore body and the fixed
suffix, followed by optional whitespace and then the opening call
delimiter; an occurrence not followed (after optional whitespace) by an
opening parenthesis is never counted. -/
theorem c6_token_shape_requires_paren (line sym : String)
    (h : sym ∈ findMatches line) :
    ∃ pre body ws r,
      line.data = pre ++ sym.data ++ ws ++ '(' :: r ∧
      sym.data = xcbChars ++ body ++ replyChars ∧ body ≠ [] ∧
      (∀ c ∈ body, isWordChar c = true) ∧ (∀ c ∈ ws, isPySpace c = true) :=
  findMatches_shape line sym h

theorem c6_witness :
    ∃ pre body ws r,
      "x = xcb_a_reply (y);".data =
        pre ++ "xcb_a_reply".data ++ ws ++ '(' :: r ∧
      "xcb_a_reply".data = xcbChars ++ body ++ replyChars ∧ body ≠ [] ∧
      (∀ c ∈ body, isWordChar c = true) ∧ (∀ c ∈ ws, isPySpace c = true) :=
  c6_token_shape_requires_paren "x = xcb_a_reply (y);" "xcb_a_reply" (by decide)

/-- C8: inserting any number of lines whose every regex match is one
of the ignored non-blocking poll symbols into a tracked file leaves the
scanner result (counter and total) exactly unchanged. -/
theorem c8_ignored_occurrences_leave_actual_unchanged
    (fs fs2 : String → Option (List String)) (f : String)
    (l1 extra l2 : List String)
    (hls : fs f = some (l1 ++ l2))
    (hfs2 : ∀ g, fs2 g = if g = f then some (l1 ++ extra ++ l2) else fs g)
    (hextra : ∀ raw ∈ extra, ∀ s ∈ findMatches raw,
      IGNORED_REPLY_SYMBOLS.contains s = true) :
    collect_actual fs2 DEFAULT_TRACKED_FILES =
      collect_actual fs DEFAULT_TRACKED_FILES := by
  unfold collect_actual
  apply collectGo_congr
  intro g _
  by_cases hg : g = f
  · subst hg
    right
    refine ⟨l1 ++ l2, l1 ++ extra ++ l2, hls, by rw [hfs2]; simp, ?_⟩
    rw [fileKeys_append, fileKeys_append, fileKeys_append,
      fileKeys_nil_of_ignored g extra hextra]
    simp
  · left
    rw [hfs2 g, if_neg hg]

theorem c8_witness :
    collect_actual
      (fun g => if g = "src/menu.c" then
        some (["r = xcb_query_pointer_reply(c, ck, 0);",
               "s = xcb_query_pointer_reply(c, ck, 0); t = xcb_query_pointer_reply(c, ck, 0);"] ++
          List.replicate 10 "xcb_poll_for_reply(w);" ++
          ["// u = xcb_query_pointer_reply(c, ck, 0);",
           "u = xcb_query_pointer_reply (c, ck, 0);",
           "v = xcb_query_pointer_reply(c, ck, 0);"])
      else sampleFS g) DEFAULT_TRACKED_FILES =
    collect_actual sampleFS DEFAULT_TRACKED_FILES :=
  c8_ignored_occurrences_leave_actual_unchanged sampleFS
    (fun g => if g = "src/menu.c" then
      some (["r = xcb_query_pointer_reply(c, ck, 0);",
             "s = xcb_query_pointer_reply(c, ck, 0); t = xcb_query_pointer_reply(c, ck, 0);"] ++
        List.replicate 10 "xcb_poll_for_reply(w);" ++
        ["// u = xcb_query_pointer_reply(c, ck, 0);",
         "u = xcb_query_pointer_reply (c, ck, 0);",
         "v = xcb_query_pointer_reply(c, ck, 0);"])
    else sampleFS g)
    "src/menu.c"
    ["r = xcb_query_pointer_reply(c, ck, 0);",
     "s = xcb_query_pointer_reply(c, ck, 0); t = xcb_query_pointer_reply(c, ck, 0);"]
    (List.replicate 10 "xcb_poll_for_reply(w);")
    ["// u = xcb_query_pointer_reply(c, ck, 0);",
     "u = xcb_query_pointer_reply (c, ck, 0);",
     "v = xcb_query_pointer_reply(c, ck, 0);"]
    (by rfl) (fun g => rfl) (by decide)

/-- C10: the nine-character symbol xcb_reply passes every parser
symbol-shape check (it starts with the prefix and ends with the suffix,
sharing their underscore), yet the scanner pattern requires a nonempty
body between prefix and suffix and so can never produce it; a parsed
allowlist row declaring it therefore always yields a policy-mismatch
failure with no success line, never a parse error. -/
theorem c10_xcb_reply_parses_but_never_scans
    (al : List String) (fs : String → Option (List String))
    (e a : SymCounter) (et at2 : Nat) (row p ct r : String)
    (he : parse_allowlist (some al) DEFAULT_TRACKED_FILES = .ok (e, et))
    (ha : collect_actual fs DEFAULT_TRACKED_FILES = .ok (a, at2))
    (hmem : row ∈ al)
    (hne : (pyStrip row).data.isEmpty = false)
    (hnc : startsWithL ['#'] (pyStrip row).data = false)
    (hfields : ruleFields (pyStrip row) = [p, "xcb_reply", ct, r]) :
    (startsWithL xcbChars "xcb_reply".data = true ∧
     endsWithL replyChars "xcb_reply".data = true ∧
     endsWithL fromReplyChars "xcb_reply".data = false) ∧
    (∀ line : String, "xcb_reply" ∉ findMatches line) ∧
    0 < lookup e (p, "xcb_reply") ∧
    lookup a (p, "xcb_reply") = 0 ∧
    run (some al) fs = ⟨1, [], [mismatchMsg e a]⟩ := by
  have hnever : ∀ line : String, "xcb_reply" ∉ findMatches line := by
    intro line h
    obtain ⟨pre, body, ws, r2, _, hsd, hbne, _, _⟩ := findMatches_shape line _ h
    have hlen := congrArg List.length hsd
    have h9 : ("xcb_reply".data).length = 9 := by decide
    rw [h9] at hlen
    simp [xcbChars, replyChars, List.length_append] at hlen
  have hlookup : 0 < lookup e (p, "xcb_reply") := by
    obtain ⟨m, k, n, hpr, hle⟩ :=
      parseLines_ok_rule DEFAULT_TRACKED_FILES row hne hnc al 1 [] e et he hmem
    obtain ⟨ct2, r2, hrf, _, _, _, _, _, _, hnpos⟩ :=
      parseRule_ok_shape DEFAULT_TRACKED_FILES m (pyStrip row) k n hpr
    rw [hfields] at hrf
    injection hrf with h1 hrf
    injection hrf with h2 _
    have hkey : (p, "xcb_reply") = k := by
      rw [h1, h2]
    rw [hkey]
    omega
  have hzero : lookup a (p, "xcb_reply") = 0 := by
    obtain ⟨hsh, _⟩ := collect_ok_shape fs DEFAULT_TRACKED_FILES a at2 ha
    rw [hsh, lookup_incrAll,
      countK_eq_zero (p, "xcb_reply") (trackKeys fs DEFAULT_TRACKED_FILES) ?_]
    · rfl
    · intro x hx hxk
      obtain ⟨raw, hm⟩ := mem_trackKeys fs DEFAULT_TRACKED_FILES x hx
      rw [hxk] at hm
      exact hnever raw hm
  have hfalse : ceq e a = false :=
    ceq_false_of_lookup_ne e a (p, "xcb_reply") (by omega)
  exact ⟨⟨by decide, by decide, by decide⟩, hnever, hlookup, hzero,
    run_mismatch (some al) fs e a et at2 he ha hfalse⟩

theorem c10_witness :
    (startsWithL xcbChars "xcb_reply".data = true ∧
     endsWithL replyChars "xcb_reply".data = true ∧
     endsWithL fromReplyChars "xcb_reply".data = false) ∧
    (∀ line : String, "xcb_reply" ∉ findMatches line) ∧
    0 < lookup [(("src/menu.c", "xcb_reply"), 1)] ("src/menu.c", "xcb_reply") ∧
    lookup sampleCounter ("src/menu.c", "xcb_reply") = 0 ∧
    run (some ["src/menu.c|xcb_reply|1|bound<=1 legacy"]) sampleFS =
      ⟨1, [], [mismatchMsg [(("src/menu.c", "xcb_reply"), 1)] sampleCounter]⟩ :=
  c10_xcb_reply_parses_but_never_scans
    ["src/menu.c|xcb_reply|1|bound<=1 legacy"] sampleFS
    [(("src/menu.c", "xcb_reply"), 1)] sampleCounter 1 5
    "src/menu.c|xcb_reply|1|bound<=1 legacy" "src/menu.c" "1" "bound<=1 legacy"
    (by rfl) (by rfl) (by decide) (by decide) (by decide) (by decide)

/-- C7: starting from a passing run, replacing one live line of a
tracked file by a line that contains exactly one additional counted
call site of a kept symbol (allowlist unchanged) makes the run fail
through the mismatch branch, and the actual count at that key becomes
the expected count plus one. -/
theorem c7_one_extra_callsite_flips_run
    (al : List String) (fs fs2 : String → Option (List String))
    (e a : SymCounter) (et at2 : Nat)
    (f s oldLine bigLine : String) (l1 l2 : List String)
    (he : parse_allowlist (some al) DEFAULT_TRACKED_FILES = .ok (e, et))
    (ha : collect_actual fs DEFAULT_TRACKED_FILES = .ok (a, at2))
    (heq : ceq e a = true)
    (hf : f ∈ DEFAULT_TRACKED_FILES)
    (hls : fs f = some (l1 ++ oldLine :: l2))
    (hfs2 : ∀ g, fs2 g = if g = f then some (l1 ++ bigLine :: l2) else fs g)
    (hkeys : lineKeys f bigLine = lineKeys f oldLine ++ [(f, s)]) :
    ∃ a2, collect_actual fs2 DEFAULT_TRACKED_FILES = .ok (a2, at2 + 1) ∧
      lookup a2 (f, s) = lookup a (f, s) + 1 ∧
      lookup a2 (f, s) = lookup e (f, s) + 1 ∧
      (∀ k, k ≠ (f, s) → lookup a2 k = lookup a k) ∧
      run (some al) fs2 = ⟨1, [], [mismatchMsg e a2]⟩ := by
  obtain ⟨hsa, hst⟩ := collect_ok_shape fs DEFAULT_TRACKED_FILES a at2 ha
  have hpres2 : ∀ g ∈ DEFAULT_TRACKED_FILES, fs2 g ≠ none := by
    intro g hg
    rw [hfs2 g]
    by_cases hgf : g = f
    · rw [if_pos hgf]
      simp
    · rw [if_neg hgf]
      exact collectGo_present fs DEFAULT_TRACKED_FILES ([], 0) a at2 ha g hg
  have hgd2 : (fs2 f).getD [] = l1 ++ bigLine :: l2 := by
    rw [hfs2 f, if_pos rfl]
    rfl
  have hgd : (fs f).getD [] = l1 ++ oldLine :: l2 := by
    rw [hls]
    rfl
  have hfk2 : fileKeys f (l1 ++ bigLine :: l2) =
      fileKeys f l1 ++ lineKeys f oldLine ++ [(f, s)] ++ fileKeys f l2 := by
    rw [fileKeys_append,
      show fileKeys f (bigLine :: l2) = lineKeys f bigLine ++ fileKeys f l2 from rfl,
      hkeys]
    simp [List.append_assoc]
  have hfk : fileKeys f (l1 ++ oldLine :: l2) =
      fileKeys f l1 ++ lineKeys f oldLine ++ fileKeys f l2 := by
    rw [fileKeys_append,
      show fileKeys f (oldLine :: l2) = lineKeys f oldLine ++ fileKeys f l2 from rfl]
    simp [List.append_assoc]
  obtain ⟨t1, t2, hsplit⟩ := List.append_of_mem hf
  have hnd : (t1 ++ f :: t2).Nodup := by
    rw [← hsplit]
    decide
  rcases List.nodup_append.mp hnd with ⟨_, hnd2, hdisj⟩
  have hft1 : f ∉ t1 := fun hmem1 => hdisj hmem1 (List.mem_cons_self f t2)
  have ht1 : ∀ g ∈ t1, fs2 g = fs g := by
    intro g hg
    rw [hfs2 g, if_neg (show ¬ g = f from fun hgf => hft1 (hgf ▸ hg))]
  have hft2 : f ∉ t2 := (List.nodup_cons.mp hnd2).1
  have ht2 : ∀ g ∈ t2, fs2 g = fs g := by
    intro g hg
    rw [hfs2 g, if_neg (show ¬ g = f from fun hgf => hft2 (hgf ▸ hg))]
  have hcount : ∀ k, countK k (trackKeys fs2 DEFAULT_TRACKED_FILES) =
      countK k (trackKeys fs DEFAULT_TRACKED_FILES) +
        (if (f, s) = k then 1 else 0) := by
    intro k
    rw [hsplit, trackKeys_append, trackKeys_append, trackKeys_cons, trackKeys_cons,
      trackKeys_congr fs fs2 t1 ht1, trackKeys_congr fs fs2 t2 ht2,
      hgd2, hgd, hfk2, hfk]
    by_cases hk : (f, s) = k
    · simp [countK_append, countK, hk]
      omega
    · simp [countK_append, countK, hk]
  have hlen2 : (trackKeys fs2 DEFAULT_TRACKED_FILES).length =
      (trackKeys fs DEFAULT_TRACKED_FILES).length + 1 := by
    rw [hsplit, trackKeys_append, trackKeys_append, trackKeys_cons, trackKeys_cons,
      trackKeys_congr fs fs2 t1 ht1, trackKeys_congr fs fs2 t2 ht2,
      hgd2, hgd, hfk2, hfk]
    simp
    omega
  have hok2 : collect_actual fs2 DEFAULT_TRACKED_FILES =
      .ok (incrAll [] (trackKeys fs2 DEFAULT_TRACKED_FILES),
        0 + (trackKeys fs2 DEFAULT_TRACKED_FILES).length) :=
    collectGo_eq fs2 DEFAULT_TRACKED_FILES ([], 0) hpres2
  have htot : 0 + (trackKeys fs2 DEFAULT_TRACKED_FILES).length = at2 + 1 := by
    rw [hlen2, hst]
    omega
  have hplus : lookup (incrAll [] (trackKeys fs2 DEFAULT_TRACKED_FILES)) (f, s) =
      lookup a (f, s) + 1 := by
    rw [lookup_incrAll, hsa, lookup_incrAll, hcount (f, s), if_pos rfl]
    omega
  have hee : lookup e (f, s) = lookup a (f, s) := ceq_lookup e a heq (f, s)
  refine ⟨incrAll [] (trackKeys fs2 DEFAULT_TRACKED_FILES), ?_, hplus, ?_, ?_, ?_⟩
  · rw [hok2, htot]
  · rw [hplus, hee]
  · intro k hk
    rw [lookup_incrAll, hsa, lookup_incrAll, hcount k,
      if_neg (show ¬ (f, s) = k from fun hh => hk hh.symm)]
    omega
  · have hfalse : ceq e (incrAll [] (trackKeys fs2 DEFAULT_TRACKED_FILES)) = false := by
      apply ceq_false_of_lookup_ne e _ (f, s)
      rw [hplus, hee]
      omega
    exact run_mismatch (some al) fs2 e _ et (at2 + 1) he (by rw [hok2, htot]) hfalse

theorem c7_witness :
    ∃ a2, collect_actual extraCallFS DEFAULT_TRACKED_FILES = .ok (a2, 5 + 1) ∧
      lookup a2 ("src/menu.c", "xcb_get_input_focus_reply") =
        lookup sampleCounter ("src/menu.c", "xcb_get_input_focus_reply") + 1 ∧
      lookup a2 ("src/menu.c", "xcb_get_input_focus_reply") =
        lookup sampleCounter ("src/menu.c", "xcb_get_input_focus_reply") + 1 ∧
      (∀ k, k ≠ ("src/menu.c", "xcb_get_input_focus_reply") →
        lookup a2 k = lookup sampleCounter k) ∧
      run (some sampleAllowlist) extraCallFS =
        ⟨1, [], [mismatchMsg sampleCounter a2]⟩ :=
  c7_one_extra_callsite_flips_run sampleAllowlist sampleFS extraCallFS
    sampleCounter sampleCounter 5 5
    "src/menu.c" "xcb_get_input_focus_reply" menuLastLine menuLastLineExtra
    menuFirstFour []
    (by rfl) (by rfl) (by decide) (by decide) (by rfl) (fun g => rfl) (by decide)
